import Mathlib

/-!
Verification of src/my_bot.py (telegram-movie-bot).

Strings of the Python source are modelled as `List Char`; machine-level
behaviour of `str.strip`, `str.split(sep, maxsplit)`, `int(str)` and the
regular expressions used by the source is embedded explicitly below.
Each definition's doc comment names the source function and lines it embeds.
-/

/-- Whitespace test used to model Python `str.strip` / `str.rstrip`
over the ASCII range (space, tab, newline, carriage return, vertical
tab, form feed). -/
def pySpace (c : Char) : Bool :=
  c == ' ' || c == '\t' || c == '\n' || c == '\r' ||
  c == '\x0b' || c == '\x0c'

/-- Model of Python `str.strip()`: drop whitespace from both ends. -/
def pyStrip (l : List Char) : List Char :=
  ((l.dropWhile pySpace).reverse.dropWhile pySpace).reverse

/-- Model of Python `str.rstrip()`: drop whitespace from the right end. -/
def pyRstrip (l : List Char) : List Char :=
  (l.reverse.dropWhile pySpace).reverse

/-- Decimal-digit test, modelling the regex class `\d` over the ASCII
range (code points 48-57). -/
def isDigitChar (c : Char) : Bool :=
  48 ≤ c.toNat && c.toNat ≤ 57

/-- Value of a list of decimal digit characters, most significant first
(the value Python's `int` computes once the digit string is validated). -/
def digitsToNat (ds : List Char) : Nat :=
  ds.foldl (fun a c => 10 * a + (c.toNat - 48)) 0

/-- Decimal rendering of a natural number, modelling Python `str(n)`
for a non-negative `int` (as produced by the f-string in
src/my_bot.py line 175). -/
def natDigits (n : Nat) : List Char :=
  if h : n < 10 then [Char.ofNat (48 + n)]
  else natDigits (n / 10) ++ [Char.ofNat (48 + n % 10)]
termination_by n
decreasing_by exact Nat.div_lt_self (by omega) (by omega)

/-- Digit-run validation of Python `int`: a non-empty run of decimal
digits in which a single underscore may stand between two digits
(Python's numeric-literal underscore rule); returns the digits with
underscores removed, or `none` when the run is malformed. -/
def digitsUS : List Char → Option (List Char)
  | [] => none
  | c :: rest =>
    if isDigitChar c then
      match rest with
      | [] => some [c]
      | d :: rest2 =>
        if d = '_' then (digitsUS rest2).map (fun ds => c :: ds)
        else (digitsUS (d :: rest2)).map (fun ds => c :: ds)
    else none

/-- Sign-and-digit-run step of Python `int`, applied after whitespace
stripping: an optional single leading sign, then a valid digit run. -/
def pyIntCore : List Char → Option Int
  | [] => none
  | c :: rest =>
    if c = '+' then (digitsUS rest).map (fun ds => (digitsToNat ds : Int))
    else if c = '-' then (digitsUS rest).map (fun ds => -(digitsToNat ds : Int))
    else (digitsUS (c :: rest)).map (fun ds => (digitsToNat ds : Int))

/-- Model of Python `int(s)` on a decimal string: surrounding whitespace
is stripped, an optional single leading sign is honoured, and the
remainder must be a valid digit run; returns `none` exactly when Python
raises `ValueError`. -/
def pyInt (s : List Char) : Option Int :=
  pyIntCore (pyStrip s)

/-- Split a list at the first occurrence of `sep`, returning the parts
before and after it, or `none` when `sep` does not occur. -/
def splitFirst (sep : Char) : List Char → Option (List Char × List Char)
  | [] => none
  | c :: rest =>
    if c = sep then some ([], rest)
    else (splitFirst sep rest).map (fun q => (c :: q.1, q.2))

/-- Model of Python `s.split(':', 2)` (src/my_bot.py line 205): at most
two splits, so the result has one, two or three fields and the third
field keeps any further colons verbatim. -/
def pySplitColon2 (s : List Char) : List (List Char) :=
  match splitFirst ':' s with
  | none => [s]
  | some (a, r) =>
    match splitFirst ':' r with
    | none => [a, r]
    | some (b, r2) => [a, b, r2]

/-- Test whether `s` begins with the pattern `pat` (character-wise). -/
def listStartsWith : List Char → List Char → Bool
  | _, [] => true
  | [], _ :: _ => false
  | c :: s, d :: pat => c == d && listStartsWith s pat

/-- Substring test, modelling Python's `needle in haystack` for `str`. -/
def containsTok : List Char → List Char → Bool
  | [], pat => pat.isEmpty
  | c :: rest, pat => listStartsWith (c :: rest) pat || containsTok rest pat

/-- ASCII lower-casing of one character, modelling `str.lower()` over
the ASCII range. -/
def asciiLower (c : Char) : Char :=
  if 65 ≤ c.toNat && c.toNat ≤ 90 then Char.ofNat (c.toNat + 32) else c

/-- ASCII lower-casing of a string. -/
def lowerStr (s : List Char) : List Char := s.map asciiLower

/-- Lookbehind/lookahead test of the year regex: an `Option Char`
position is acceptable when it is absent or holds a non-digit. -/
def notDigitB : Option Char → Bool
  | some c => !(isDigitChar c)
  | none => true

/-- Match of the regex `(?<!\d)(19\d{2}|20\d{2})(?!\d)` anchored at the
current position: `prev` is the character immediately before the
position (or `none` at the start of the text). -/
def yearAt (prev : Option Char) (cs : List Char) : Option (List Char) :=
  match cs with
  | c1 :: c2 :: c3 :: c4 :: rest =>
    if notDigitB prev &&
       ((c1 == '1' && c2 == '9') || (c1 == '2' && c2 == '0')) &&
       isDigitChar c3 && isDigitChar c4 &&
       notDigitB rest.head?
    then some [c1, c2, c3, c4] else none
  | _ => none

/-- Left-to-right scan of `re.search` for the year regex: try the match
at each position, keeping the leftmost success. -/
def searchYear : Option Char → List Char → Option (List Char)
  | _, [] => none
  | prev, c :: rest =>
    match yearAt prev (c :: rest) with
    | some y => some y
    | none => searchYear (some c) rest

/-- Model of `extract_year` (src/my_bot.py lines 40-42):
`re.search(r'(?<!\d)(19\d{2}|20\d{2})(?!\d)', text)`, returning the
matched four-digit group or `None`. -/
def extract_year (text : List Char) : Option (List Char) :=
  searchYear none text

/-- Model of `get_quality_label` (src/my_bot.py lines 59-66):
case-insensitive containment tests in a fixed priority order. -/
def get_quality_label (text : List Char) : Option (List Char) :=
  let t := lowerStr text
  if containsTok t "2160p".data || containsTok t "4k".data then some "2160p".data
  else if containsTok t "1080p".data then some "1080p".data
  else if containsTok t "720p".data then some "720p".data
  else if containsTok t "480p".data then some "480p".data
  else if containsTok t "hdrip".data then some "HDRip".data
  else none

/-- Model of `quality_rank` (src/my_bot.py lines 68-69):
`{"2160p":4, "1080p":3, "720p":2, "480p":1, "HDRip":0}.get(q or "", -1)`;
`None` and every unknown label fall through to `-1`. -/
def quality_rank (q : Option (List Char)) : Int :=
  match q with
  | some s =>
    if s = "2160p".data then 4
    else if s = "1080p".data then 3
    else if s = "720p".data then 2
    else if s = "480p".data then 1
    else if s = "HDRip".data then 0
    else -1
  | none => -1

/-- Python truthiness of an optional string (`if year:` in
src/my_bot.py lines 85-87): true exactly for a present, non-empty
string. -/
def truthy : Option (List Char) → Bool
  | some s => !s.isEmpty
  | none => false

/-- Parts list built by `build_button_label` (src/my_bot.py lines
84-87): the title always, then year / quality / language when truthy. -/
def labelParts (title : List Char) (year quality lang : Option (List Char)) :
    List (List Char) :=
  [title] ++ (if truthy year then [year.getD []] else [])
          ++ (if truthy quality then [quality.getD []] else [])
          ++ (if truthy lang then [lang.getD []] else [])

/-- Model of `" - ".join(parts)` (src/my_bot.py line 88). -/
def joinParts : List (List Char) → List Char
  | [] => []
  | [p] => p
  | p :: q :: rest => p ++ (' ' :: '-' :: ' ' :: []) ++ joinParts (q :: rest)

/-- Maximum display length of a button label (src/my_bot.py line 89). -/
def MAX_LEN : Nat := 60

/-- Model of `build_button_label` (src/my_bot.py lines 83-92): join the
truthy parts with `" - "`; when the result is longer than `MAX_LEN`,
keep the first `MAX_LEN - 1` characters, right-strip them and append
the ellipsis character. -/
def build_button_label (title : List Char)
    (year quality lang : Option (List Char)) : List Char :=
  let label := joinParts (labelParts title year quality lang)
  if MAX_LEN < label.length then pyRstrip (label.take (MAX_LEN - 1)) ++ ['…']
  else label

/-- Allow-list of `sanitize_button_text_keep_basic_punct`
(src/my_bot.py line 95): `[A-Za-z0-9 \-\(\),\+\&\.\:]`. -/
def allowChar (c : Char) : Bool :=
  (65 ≤ c.toNat && c.toNat ≤ 90) || (97 ≤ c.toNat && c.toNat ≤ 122) ||
  (48 ≤ c.toNat && c.toNat ≤ 57) || c == ' ' || c == '-' || c == '(' ||
  c == ')' || c == ',' || c == '+' || c == '&' || c == '.' || c == ':'

/-- Model of `sanitize_button_text_keep_basic_punct` (src/my_bot.py
lines 94-96): delete every character outside the allow-list, strip
whitespace, and substitute "Untitled" when the result is empty. -/
def sanitize_button_text_keep_basic_punct (text : List Char) : List Char :=
  let s := pyStrip (text.filter allowChar)
  if s.isEmpty then "Untitled".data else s

/-- Label actually attached to a menu button by `discovery_agent`
(src/my_bot.py lines 170-172): the sanitized built label. -/
def menu_label (title : List Char) (year quality lang : Option (List Char)) :
    List Char :=
  sanitize_button_text_keep_basic_punct (build_button_label title year quality lang)

/-- Entry stored in the `distinct` dictionary of `discovery_agent`
(src/my_bot.py lines 142-149): the page number and flattened button
index of the retained candidate together with its classification. -/
structure Candidate where
  page : Nat
  index : Nat
  qrank : Int
  qlabel : Option (List Char)
  year : Option (List Char)
  lang : Option (List Char)
deriving DecidableEq

/-- One dedup step of `discovery_agent` (src/my_bot.py lines 140-149)
for a fixed canonical title: `if (prior is None) or (qrank >
prior['qrank']): distinct[normalized] = {...}`. -/
def updateDistinct (prior : Option Candidate) (c : Candidate) : Option Candidate :=
  match prior with
  | none => some c
  | some p => if c.qrank > p.qrank then some c else some p

/-- Entry retained for one canonical title after feeding the whole
candidate sequence of a discovery run through the dedup step. -/
def aggregate (cs : List Candidate) : Option Candidate :=
  cs.foldl updateDistinct none

/-- Page ceiling of the pagination walker (src/my_bot.py line 18). -/
def MAX_PAGES_TO_SEARCH : Nat := 20

/-- Page loop of `discovery_agent` (src/my_bot.py lines 121-162),
abstracted over the remote pager: `hasNextBtn p` states that page `p`'s
flattened buttons contain one whose text starts with "next", and
`advOk p` states that clicking it and awaiting the edit succeeded
(its negation models the `TimeoutError`/`Exception` break).  Returns
the final value of `page_num` (pages 1..result are the pages
processed) paired with the number of next-click attempts. -/
def discoveryLoop (hasNextBtn advOk : Nat → Bool) (page_num : Nat) : Nat × Nat :=
  if h : hasNextBtn page_num = true ∧ page_num < MAX_PAGES_TO_SEARCH then
    if advOk page_num then
      ((discoveryLoop hasNextBtn advOk (page_num + 1)).1,
       (discoveryLoop hasNextBtn advOk (page_num + 1)).2 + 1)
    else (page_num, 1)
  else (page_num, 0)
termination_by MAX_PAGES_TO_SEARCH - page_num
decreasing_by all_goals obtain ⟨-, h2⟩ := h; omega

/-- Token written into the callback data by `discovery_agent`
(src/my_bot.py line 175): `f"get:{data['page']}:{data['index']}"`. -/
def encodeToken (page index : Nat) : List Char :=
  'g' :: 'e' :: 't' :: ':' :: (natDigits page ++ ':' :: natDigits index)

/-- Model of `data.startswith("get:")` (src/my_bot.py lines 200, 327). -/
def startsWithGet (data : List Char) : Bool :=
  match data with
  | 'g' :: 'e' :: 't' :: ':' :: _ => true
  | _ => false

/-- Outcome of the token parse in `execution_agent`. -/
inductive DecodeResult where
  | ok (page index : Int)
  | wrongTag
  | malformed
deriving DecidableEq

/-- Token parse of `execution_agent` (src/my_bot.py lines 199-207):
the prefix guard, then `_, page_str, index_str = data.split(':', 2)`
followed by `int(...)` on both fields; a failed unpacking or a failed
`int` conversion raises `ValueError`, modelled as `malformed`. -/
def decodeToken (data : List Char) : DecodeResult :=
  if startsWithGet data then
    match pySplitColon2 data with
    | [_, pstr, istr] =>
      match pyInt pstr, pyInt istr with
      | some tp, some ti => .ok tp ti
      | some _, none => .malformed
      | none, _ => .malformed
    | _ => .malformed
  else .wrongTag

/-- Number of parameters of `execution_agent` as defined at
src/my_bot.py line 197: `async def execution_agent(event)`. -/
def execution_agent_param_count : Nat := 1

/-- Number of arguments `private_callback_listener` passes at
src/my_bot.py line 329: `execution_agent(event, user_id)`. -/
def listener_call_arg_count : Nat := 2

/-- Outcome of `private_callback_listener` for one incoming callback. -/
inductive ListenerAction where
  | silentAnswer
  | raisesTypeError
deriving DecidableEq

/-- Model of `private_callback_listener` (src/my_bot.py lines 318-331):
non-private callbacks and tokens without the `get:` prefix are answered
silently (`event.answer()`).  The `get:` branch executes
`asyncio.create_task(execution_agent(event, user_id))` (line 329), but
binding `listener_call_arg_count` (2) arguments to the
`execution_agent_param_count` (1) parameter of `execution_agent` raises
`TypeError` at the call itself, before any task exists; the listener
has no `try`/`except`, so the handler crashes with nothing answered,
edited or sent to the user, and `execution_agent`'s body (including its
token parse and its "Invalid selection." alert at line 222) never
runs. -/
def private_callback_listener (isPrivate : Bool) (data : List Char) :
    ListenerAction :=
  if !isPrivate then .silentAnswer
  else if startsWithGet data then .raisesTypeError
  else .silentAnswer

/-- Remote pager behaviour seen by one replay: `hasNextBtn k` states
that the page shown after `k - 1` next-clicks has a "next" button,
`advOk k` that clicking it and awaiting the edit succeeded, and
`artifactAt k` that the `k`-th response polled after clicking the
target index carries media. -/
structure ReplayEnv where
  hasNextBtn : Nat → Bool
  advOk : Nat → Bool
  artifactAt : Nat → Bool

/-- Halting state of the replay's next-click loop, carrying the number
of next-clicks performed. -/
inductive ReplayHalt where
  | reached (clicks : Nat)
  | stateChanged (clicks : Nat)
  | waitTimeout (clicks : Nat)
deriving DecidableEq

/-- Next-click loop of `execution_agent` (src/my_bot.py lines 249-255):
`for _ in range(1, target_page)`, raising when the "next" button is
absent, clicking and awaiting the edit otherwise.  `k` is the current
page, the `Nat` argument the remaining iteration count. -/
def replayWalk (env : ReplayEnv) (k : Nat) : Nat → ReplayHalt
  | 0 => .reached 0
  | r + 1 =>
    if env.hasNextBtn k then
      if env.advOk k then
        match replayWalk env (k + 1) r with
        | .reached n => .reached (n + 1)
        | .stateChanged n => .stateChanged (n + 1)
        | .waitTimeout n => .waitTimeout (n + 1)
      else .waitTimeout 1
    else .stateChanged 0

/-- Bounded poll helper: try responses `k, k+1, ...` for the given
number of attempts, returning the first one carrying media. -/
def pollGo (artifactAt : Nat → Bool) : Nat → Nat → Option Nat
  | 0, _ => none
  | n + 1, k => if artifactAt k then some k else pollGo artifactAt n (k + 1)

/-- Poll loop of `execution_agent` (src/my_bot.py lines 259-264):
`for _ in range(8)` over the responses after the target click. -/
def pollForArtifact (artifactAt : Nat → Bool) : Option Nat :=
  pollGo artifactAt 8 1

/-- Value of the name `user_id` in the scope of `execution_agent` at
src/my_bot.py line 269: the function's only parameter is `event`
(line 197), no enclosing or global binding of `user_id` exists (the
assignment at line 328 is local to `private_callback_listener`), so
the lookup fails and Python raises `NameError` at the forward step. -/
def execution_agent_scope_user_id : Option Int := none

/-- Kind of exception raised inside the replay `try` block. -/
inductive ExecErrKind where
  | stateChanged
  | waitTimeout
  | deliveryTimeout
  | nameErrorUserId
deriving DecidableEq

/-- Final user-visible state of one execution: either the generic edit
"An error occurred during retrieval." (src/my_bot.py line 279) or a
forwarded artifact with the status message deleted (lines 269-274). -/
inductive ExecEnd where
  | errorEditRetrieval
  | forwardedAndCleaned
deriving DecidableEq

/-- Observable trace of one execution of the replay block. -/
structure ExecTrace where
  nextClicks : Nat
  clickedTargetIdx : Bool
  ending : ExecEnd
  raised : Option ExecErrKind
deriving DecidableEq

/-- Replay block of `execution_agent` (src/my_bot.py lines 236-281)
for a decoded `target_page` (`target_index` is the argument of the
final `current.click`, line 257): walk `target_page - 1` next-clicks,
click the target index, poll up to 8 responses for media, forward the
artifact (which evaluates the unbound name `user_id`) and delete the
status message; every raised exception is caught by the trailing
`except`, which edits in the generic retrieval error. -/
def execution_agent_replay (env : ReplayEnv) (target_page : Nat)
    (target_index : Int) : ExecTrace :=
  match replayWalk env 1 (target_page - 1) with
  | .stateChanged n => ⟨n, false, .errorEditRetrieval, some .stateChanged⟩
  | .waitTimeout n => ⟨n, false, .errorEditRetrieval, some .waitTimeout⟩
  | .reached n =>
    match pollForArtifact env.artifactAt with
    | none => ⟨n, true, .errorEditRetrieval, some .deliveryTimeout⟩
    | some _ =>
      match execution_agent_scope_user_id with
      | none => ⟨n, true, .errorEditRetrieval, some .nameErrorUserId⟩
      | some _ => ⟨n, true, .forwardedAndCleaned, none⟩

/-- Property of a four-character decimal run whose value lies in the
year range accepted by the regex alternation `19\d{2}|20\d{2}`
(1900-2099). -/
def isYearRun (y : List Char) : Prop :=
  y.length = 4 ∧ (∀ c ∈ y, isDigitChar c = true) ∧
  1900 ≤ digitsToNat y ∧ digitsToNat y ≤ 2099

/-- An optional character that is absent or not a digit (the regex
lookaround conditions at a boundary position). -/
def notDigitO (o : Option Char) : Prop :=
  ∀ c, o = some c → isDigitChar c = false

/-- Character immediately before the scan position: the last character
of the consumed text, or the incoming `prev` when nothing was consumed. -/
def lookBehind (prev : Option Char) (mid : List Char) : Option Char :=
  if mid.isEmpty then prev else mid.getLast?

/-! ## Theorems -/

/-- Folding the dedup step from an occupied accumulator always retains
the first element (accumulator first) whose quality rank attains the
maximum of the whole sequence. -/
lemma foldl_updateDistinct_argmax (a : Candidate) (cs : List Candidate) :
    ∃ r, List.foldl updateDistinct (some a) cs = some r ∧
      (∀ c ∈ a :: cs, c.qrank ≤ r.qrank) ∧
      (a :: cs).find? (fun c => c.qrank == r.qrank) = some r := by
  induction cs generalizing a with
  | nil =>
    refine ⟨a, rfl, ?_, ?_⟩
    · intro c hc
      simp only [List.mem_singleton] at hc
      subst hc; exact le_refl _
    · simp [List.find?]
  | cons c cs ih =>
    by_cases hgt : a.qrank < c.qrank
    · obtain ⟨r, hr, hmax, hfind⟩ := ih c
      have hstep : List.foldl updateDistinct (some a) (c :: cs) =
          List.foldl updateDistinct (some c) cs := by
        simp [List.foldl_cons, updateDistinct, hgt]
      have haq : a.qrank < r.qrank :=
        lt_of_lt_of_le hgt (hmax c (List.mem_cons_self c cs))
      refine ⟨r, by rw [hstep]; exact hr, ?_, ?_⟩
      · intro x hx
        rcases List.mem_cons.mp hx with h | h
        · subst h; exact le_of_lt haq
        · exact hmax x h
      · have hpa : (a.qrank == r.qrank) = false := by
          simp [haq.ne]
        simpa [List.find?, hpa] using hfind
    · obtain ⟨r, hr, hmax, hfind⟩ := ih a
      have hstep : List.foldl updateDistinct (some a) (c :: cs) =
          List.foldl updateDistinct (some a) cs := by
        simp [List.foldl_cons, updateDistinct, hgt]
      have hca : c.qrank ≤ a.qrank := le_of_not_lt hgt
      have har : a.qrank ≤ r.qrank := hmax a (List.mem_cons_self a cs)
      refine ⟨r, by rw [hstep]; exact hr, ?_, ?_⟩
      · intro x hx
        rcases List.mem_cons.mp hx with h | h
        · subst h; exact har
        · rcases List.mem_cons.mp h with h2 | h2
          · subst h2; exact le_trans hca har
          · exact hmax x (List.mem_cons_of_mem a h2)
      · by_cases hpa : (a.qrank == r.qrank) = true
        · have : (a :: cs).find? (fun c => c.qrank == r.qrank) = some a := by
            simp [List.find?, hpa]
          have hra : a = r := by
            rw [this] at hfind; exact Option.some.inj hfind
          simp [List.find?, hpa, hra]
        · have hpa' : (a.qrank == r.qrank) = false := by
            simpa using hpa
          have haq : a.qrank < r.qrank := by
            rcases lt_or_eq_of_le har with h | h
            · exact h
            · exact absurd (by simpa using h) (by simpa using hpa)
          have hpc : (c.qrank == r.qrank) = false := by
            have : c.qrank < r.qrank := lt_of_le_of_lt hca haq
            simp [this.ne]
          have hrest : cs.find? (fun c => c.qrank == r.qrank) = some r := by
            simpa [List.find?, hpa'] using hfind
          simp [List.find?, hpa', hpc, hrest]

/-- C1: for every sequence of classified candidates sharing one
canonical title fed to the dedup aggregator during one discovery run,
the retained entry (the whole stored record, hence also its page and
index) is the first-seen candidate whose quality rank equals the
maximum quality rank over the sequence; a stored entry is replaced only
on a strictly greater rank, so ties keep the first-seen entry. -/
theorem C1_dedup_first_max (cs : List Candidate) (hne : cs ≠ []) :
    ∃ r, aggregate cs = some r ∧
      (∀ c ∈ cs, c.qrank ≤ r.qrank) ∧
      cs.find? (fun c => c.qrank == r.qrank) = some r := by
  cases cs with
  | nil => exact absurd rfl hne
  | cons a cs =>
    obtain ⟨r, hr, hmax, hfind⟩ := foldl_updateDistinct_argmax a cs
    refine ⟨r, ?_, hmax, hfind⟩
    simpa [aggregate, List.foldl_cons, updateDistinct] using hr

theorem C1_dedup_first_max_witness :
    ([⟨1, 0, 2, none, none, none⟩, ⟨2, 5, 3, none, none, none⟩,
      ⟨2, 6, 3, none, none, none⟩] : List Candidate) ≠ [] ∧
    ∃ r, aggregate [⟨1, 0, 2, none, none, none⟩, ⟨2, 5, 3, none, none, none⟩,
        ⟨2, 6, 3, none, none, none⟩] = some r ∧
      (∀ c ∈ ([⟨1, 0, 2, none, none, none⟩, ⟨2, 5, 3, none, none, none⟩,
        ⟨2, 6, 3, none, none, none⟩] : List Candidate), c.qrank ≤ r.qrank) ∧
      List.find? (fun c => c.qrank == r.qrank)
        [⟨1, 0, 2, none, none, none⟩, ⟨2, 5, 3, none, none, none⟩,
         ⟨2, 6, 3, none, none, none⟩] = some r :=
  ⟨by decide, C1_dedup_first_max _ (by decide)⟩

/-- Bounds of the page loop: starting from any page number at most the
ceiling, the final page counter stays at most the ceiling and the
number of next-click attempts is at most the remaining budget. -/
lemma discoveryLoop_bounds (hasNextBtn advOk : Nat → Bool) :
    ∀ n p, MAX_PAGES_TO_SEARCH - p = n → p ≤ MAX_PAGES_TO_SEARCH →
      (discoveryLoop hasNextBtn advOk p).1 ≤ MAX_PAGES_TO_SEARCH ∧
      (discoveryLoop hasNextBtn advOk p).2 ≤ MAX_PAGES_TO_SEARCH - p := by
  intro n
  induction n with
  | zero =>
    intro p h1 h2
    have hp : p = MAX_PAGES_TO_SEARCH := by omega
    rw [discoveryLoop]
    have hguard : ¬(hasNextBtn p = true ∧ p < MAX_PAGES_TO_SEARCH) := by
      rintro ⟨-, hlt⟩; omega
    simp [hguard, hp]
  | succ n ih =>
    intro p h1 h2
    rw [discoveryLoop]
    by_cases hguard : hasNextBtn p = true ∧ p < MAX_PAGES_TO_SEARCH
    · rw [dif_pos hguard]
      by_cases hadv : advOk p = true
      · rw [if_pos hadv]
        have := ih (p + 1) (by omega) (by omega)
        constructor
        · exact this.1
        · simp only []
          omega
      · rw [if_neg hadv]
        constructor
        · omega
        · simp only []
          omega
    · rw [dif_neg hguard]
      constructor
      · exact h2
      · simp

/-- When every page offers a working "next" control, the loop walks
exactly up to the ceiling. -/
lemma discoveryLoop_full (hasNextBtn advOk : Nat → Bool)
    (hb : ∀ p, hasNextBtn p = true) (ha : ∀ p, advOk p = true) :
    ∀ n p, MAX_PAGES_TO_SEARCH - p = n → p ≤ MAX_PAGES_TO_SEARCH →
      discoveryLoop hasNextBtn advOk p =
        (MAX_PAGES_TO_SEARCH, MAX_PAGES_TO_SEARCH - p) := by
  intro n
  induction n with
  | zero =>
    intro p h1 h2
    have hp : p = MAX_PAGES_TO_SEARCH := by omega
    rw [discoveryLoop]
    have hguard : ¬(hasNextBtn p = true ∧ p < MAX_PAGES_TO_SEARCH) := by
      rintro ⟨-, hlt⟩; omega
    simp [hguard, hp]
  | succ n ih =>
    intro p h1 h2
    rw [discoveryLoop]
    have hguard : hasNextBtn p = true ∧ p < MAX_PAGES_TO_SEARCH :=
      ⟨hb p, by omega⟩
    rw [dif_pos hguard, if_pos (ha p), ih (p + 1) (by omega) (by omega)]
    have : MAX_PAGES_TO_SEARCH - (p + 1) + 1 = MAX_PAGES_TO_SEARCH - p := by
      omega
    simp [this]

/-- C4: every discovery run processes at most `MAX_PAGES_TO_SEARCH`
(20) pages and terminates: the final page counter never exceeds the
ceiling, at most 19 next-clicks are attempted, a loop entered at the
ceiling never clicks "next", and when every page presents a working
"next" control the walk stops exactly at page 20 after 19 clicks. -/
theorem C4_walker_ceiling (hasNextBtn advOk : Nat → Bool) :
    (discoveryLoop hasNextBtn advOk 1).1 ≤ MAX_PAGES_TO_SEARCH ∧
    (discoveryLoop hasNextBtn advOk 1).2 ≤ MAX_PAGES_TO_SEARCH - 1 ∧
    (discoveryLoop hasNextBtn advOk MAX_PAGES_TO_SEARCH).2 = 0 ∧
    ((∀ p, hasNextBtn p = true) → (∀ p, advOk p = true) →
      discoveryLoop hasNextBtn advOk 1 =
        (MAX_PAGES_TO_SEARCH, MAX_PAGES_TO_SEARCH - 1)) := by
  refine ⟨?_, ?_, ?_, ?_⟩
  · exact (discoveryLoop_bounds hasNextBtn advOk _ 1 rfl (by decide)).1
  · exact (discoveryLoop_bounds hasNextBtn advOk _ 1 rfl (by decide)).2
  · rw [discoveryLoop]
    have hguard : ¬(hasNextBtn MAX_PAGES_TO_SEARCH = true ∧
        MAX_PAGES_TO_SEARCH < MAX_PAGES_TO_SEARCH) := by
      rintro ⟨-, hlt⟩; omega
    simp [hguard]
  · intro hb ha
    exact discoveryLoop_full hasNextBtn advOk hb ha _ 1 rfl (by decide)

theorem C4_walker_ceiling_witness :
    discoveryLoop (fun _ => true) (fun _ => true) 1 =
      (MAX_PAGES_TO_SEARCH, MAX_PAGES_TO_SEARCH - 1) :=
  (C4_walker_ceiling (fun _ => true) (fun _ => true)).2.2.2
    (fun _ => rfl) (fun _ => rfl)

/-- Character-level facts about the decimal digit characters. -/
lemma digitChar_facts (r : Nat) (h : r < 10) :
    (Char.ofNat (48 + r)).toNat = 48 + r ∧
    isDigitChar (Char.ofNat (48 + r)) = true ∧
    pySpace (Char.ofNat (48 + r)) = false ∧
    Char.ofNat (48 + r) ≠ ':' ∧ Char.ofNat (48 + r) ≠ '_' ∧
    Char.ofNat (48 + r) ≠ '+' ∧ Char.ofNat (48 + r) ≠ '-' := by
  interval_cases r <;> decide

/-- The decimal rendering is non-empty and consists of digit
characters. -/
lemma natDigits_props : ∀ n : Nat, natDigits n ≠ [] ∧
    ∀ c ∈ natDigits n, ∃ r, r < 10 ∧ c = Char.ofNat (48 + r) := by
  intro n
  induction n using Nat.strong_induction_on with
  | _ n ih =>
    rw [natDigits]
    by_cases h : n < 10
    · rw [dif_pos h]
      refine ⟨by simp, ?_⟩
      intro c hc
      simp only [List.mem_singleton] at hc
      exact ⟨n, h, hc⟩
    · rw [dif_neg h]
      have hd := ih (n / 10) (Nat.div_lt_self (by omega) (by omega))
      refine ⟨by simp, ?_⟩
      intro c hc
      rcases List.mem_append.mp hc with h1 | h1
      · exact hd.2 c h1
      · simp only [List.mem_singleton] at h1
        exact ⟨n % 10, Nat.mod_lt _ (by omega), h1⟩

/-- Appending one digit multiplies the accumulated value by ten. -/
lemma digitsToNat_append_one (xs : List Char) (c : Char) :
    digitsToNat (xs ++ [c]) = 10 * digitsToNat xs + (c.toNat - 48) := by
  simp [digitsToNat, List.foldl_append]

/-- The digit value of the decimal rendering is the rendered number. -/
lemma digitsToNat_natDigits : ∀ n : Nat, digitsToNat (natDigits n) = n := by
  intro n
  induction n using Nat.strong_induction_on with
  | _ n ih =>
    rw [natDigits]
    by_cases h : n < 10
    · rw [dif_pos h]
      have h1 := (digitChar_facts n h).1
      simp [digitsToNat, h1]
    · rw [dif_neg h]
      rw [digitsToNat_append_one]
      rw [ih (n / 10) (Nat.div_lt_self (by omega) (by omega))]
      have h1 := (digitChar_facts (n % 10) (Nat.mod_lt _ (by omega))).1
      rw [h1]
      omega

/-- A non-empty pure digit run validates to itself. -/
lemma digitsUS_of_digits : ∀ ds : List Char, ds ≠ [] →
    (∀ c ∈ ds, isDigitChar c = true) → digitsUS ds = some ds := by
  intro ds
  induction ds with
  | nil => intro h; exact absurd rfl h
  | cons c rest ih =>
    intro _ hall
    have hc : isDigitChar c = true := hall c (List.mem_cons_self c rest)
    cases rest with
    | nil => simp [digitsUS, hc]
    | cons d rest2 =>
      have hd : isDigitChar d = true :=
        hall d (List.mem_cons_of_mem c (List.mem_cons_self d rest2))
      have hdu : d ≠ '_' := by
        intro he; rw [he] at hd; exact absurd hd (by decide)
      have hrec := ih (by simp) (fun x hx => hall x (List.mem_cons_of_mem c hx))
      simp [digitsUS, hc, hdu, hrec]

/-- A list none of whose characters satisfy `p` is untouched by
`dropWhile p`. -/
lemma dropWhile_eq_self_of_not (p : Char → Bool) (l : List Char)
    (h : ∀ c ∈ l, p c = false) : l.dropWhile p = l := by
  cases l with
  | nil => rfl
  | cons c rest => simp [List.dropWhile, h c (List.mem_cons_self c rest)]

/-- Stripping a whitespace-free list is the identity. -/
lemma pyStrip_eq_self (l : List Char) (h : ∀ c ∈ l, pySpace c = false) :
    pyStrip l = l := by
  unfold pyStrip
  rw [dropWhile_eq_self_of_not _ _ h]
  rw [dropWhile_eq_self_of_not _ _ (fun c hc => h c (List.mem_reverse.mp hc))]
  exact List.reverse_reverse l

/-- Python `int` inverts the decimal rendering of a natural number. -/
lemma pyInt_natDigits (n : Nat) : pyInt (natDigits n) = some (n : Int) := by
  have hprops := natDigits_props n
  have hspace : ∀ c ∈ natDigits n, pySpace c = false := by
    intro c hc
    obtain ⟨r, hr, hcr⟩ := hprops.2 c hc
    rw [hcr]; exact (digitChar_facts r hr).2.2.1
  have hdig : ∀ c ∈ natDigits n, isDigitChar c = true := by
    intro c hc
    obtain ⟨r, hr, hcr⟩ := hprops.2 c hc
    rw [hcr]; exact (digitChar_facts r hr).2.1
  have hstrip : pyStrip (natDigits n) = natDigits n := pyStrip_eq_self _ hspace
  obtain ⟨c, rest, hcr⟩ : ∃ c rest, natDigits n = c :: rest := by
    cases hnd : natDigits n with
    | nil => exact absurd hnd hprops.1
    | cons c rest => exact ⟨c, rest, rfl⟩
  have hcmem : c ∈ natDigits n := by rw [hcr]; exact List.mem_cons_self c rest
  obtain ⟨r, hr, hcr2⟩ := hprops.2 c hcmem
  have hcplus : ¬(c = '+') := by
    rw [hcr2]; exact (digitChar_facts r hr).2.2.2.2.2.1
  have hcminus : ¬(c = '-') := by
    rw [hcr2]; exact (digitChar_facts r hr).2.2.2.2.2.2
  have hUS : digitsUS (c :: rest) = some (c :: rest) := by
    rw [← hcr]; exact digitsUS_of_digits _ hprops.1 hdig
  unfold pyInt
  rw [hstrip, hcr]
  simp only [pyIntCore, if_neg hcplus, if_neg hcminus, hUS, Option.map_some']
  rw [← hcr, digitsToNat_natDigits]

/-- Splitting at a separator that first occurs after `xs`. -/
lemma splitFirst_append (sep : Char) (xs ys : List Char) (h : sep ∉ xs) :
    splitFirst sep (xs ++ sep :: ys) = some (xs, ys) := by
  induction xs with
  | nil => simp [splitFirst]
  | cons c rest ih =>
    have hc : ¬(c = sep) := by
      intro he; exact h (by rw [he]; exact List.mem_cons_self _ _)
    have h2 : sep ∉ rest := fun hm => h (List.mem_cons_of_mem _ hm)
    simp [splitFirst, hc, ih h2]

/-- The colon is not a digit character, so it never occurs in a decimal
rendering. -/
lemma colon_not_mem_natDigits (n : Nat) : ':' ∉ natDigits n := by
  intro hm
  obtain ⟨r, hr, hcr⟩ := (natDigits_props n).2 ':' hm
  exact (digitChar_facts r hr).2.2.2.1 hcr.symm

/-- The two-split of an encoded token yields the tag and both fields. -/
lemma pySplitColon2_encode (p i : Nat) :
    pySplitColon2 (encodeToken p i) =
      [['g', 'e', 't'], natDigits p, natDigits i] := by
  have h1 : splitFirst ':' (encodeToken p i) =
      some (['g', 'e', 't'], natDigits p ++ ':' :: natDigits i) := by
    have he : encodeToken p i =
        ['g', 'e', 't'] ++ ':' :: (natDigits p ++ ':' :: natDigits i) := rfl
    rw [he]
    exact splitFirst_append ':' _ _ (by decide)
  have h2 : splitFirst ':' (natDigits p ++ ':' :: natDigits i) =
      some (natDigits p, natDigits i) :=
    splitFirst_append ':' _ _ (colon_not_mem_natDigits p)
  simp [pySplitColon2, h1, h2]

/-- Encoded tokens carry the `get:` tag. -/
lemma startsWithGet_encode (p i : Nat) :
    startsWithGet (encodeToken p i) = true := rfl

/-- C2: decoding an encoded token `get:<p>:<i>` yields exactly `(p, i)`
for all non-negative integers `p` and `i`; a token without the `get:`
prefix is classified as such, and every `get:`-prefixed token either
fails to a `malformed` value (wrong field count or non-integer fields,
Python's `ValueError` caught by the handler) or parses to a pair —
decoding is a total function and never escapes as an exception. -/
theorem C2_token_roundtrip :
    (∀ p i : Nat, decodeToken (encodeToken p i) = .ok (p : Int) (i : Int)) ∧
    (∀ data : List Char, startsWithGet data = false →
      decodeToken data = .wrongTag) ∧
    (∀ data : List Char, startsWithGet data = true →
      decodeToken data = .malformed ∨ ∃ p i, decodeToken data = .ok p i) := by
  refine ⟨?_, ?_, ?_⟩
  · intro p i
    simp [decodeToken, startsWithGet_encode, pySplitColon2_encode,
      pyInt_natDigits]
  · intro data h
    simp [decodeToken, h]
  · intro data h
    rcases hsp : pySplitColon2 data with - | ⟨a, - | ⟨b, - | ⟨c, - | ⟨d, rest⟩⟩⟩⟩
    · left; simp [decodeToken, h, hsp]
    · left; simp [decodeToken, h, hsp]
    · left; simp [decodeToken, h, hsp]
    · cases hp : pyInt b with
      | none => left; simp [decodeToken, h, hsp, hp]
      | some tp =>
        cases hi : pyInt c with
        | none => left; simp [decodeToken, h, hsp, hp, hi]
        | some ti =>
          right; exact ⟨tp, ti, by simp [decodeToken, h, hsp, hp, hi]⟩
    · left; simp [decodeToken, h, hsp]

theorem C2_token_roundtrip_witness :
    decodeToken (encodeToken 7 12) = .ok 7 12 ∧
    decodeToken "xyz".data = .wrongTag ∧
    (decodeToken "get:9:zz".data = .malformed ∨
      ∃ p i, decodeToken "get:9:zz".data = .ok p i) :=
  ⟨C2_token_roundtrip.1 7 12, C2_token_roundtrip.2.1 _ (by decide),
   C2_token_roundtrip.2.2 _ (by decide)⟩

/-- Unfolding of the digit test to arithmetic bounds. -/
lemma isDigitChar_iff (c : Char) :
    isDigitChar c = true ↔ 48 ≤ c.toNat ∧ c.toNat ≤ 57 := by
  simp [isDigitChar]

/-- Characters with equal code points are equal. -/
lemma char_eq_of_toNat (c d : Char) (h : c.toNat = d.toNat) : c = d :=
  Char.ext (UInt32.ext h)

/-- Consuming one character shifts the lookbehind seed. -/
lemma lookBehind_cons (prev : Option Char) (c : Char) (mid : List Char) :
    lookBehind prev (c :: mid) = lookBehind (some c) mid := by
  cases mid with
  | nil => simp [lookBehind]
  | cons d mid' => simp [lookBehind, List.getLast?_cons_cons]

/-- With no incoming character the lookbehind is the last consumed
character. -/
lemma lookBehind_none (mid : List Char) :
    lookBehind none mid = mid.getLast? := by
  cases mid <;> simp [lookBehind]

/-- The boolean and propositional lookaround conditions agree. -/
lemma notDigitB_iff (o : Option Char) : notDigitB o = true ↔ notDigitO o := by
  cases o with
  | none => simp [notDigitB, notDigitO]
  | some c => simp [notDigitB, notDigitO]

/-- A run passing the regex pattern checks is a year run. -/
lemma yearRun_of_pattern (c1 c2 c3 c4 : Char)
    (hp : ((c1 == '1' && c2 == '9') || (c1 == '2' && c2 == '0')) = true)
    (h3 : isDigitChar c3 = true) (h4 : isDigitChar c4 = true) :
    isYearRun [c1, c2, c3, c4] := by
  have h3' := (isDigitChar_iff c3).mp h3
  have h4' := (isDigitChar_iff c4).mp h4
  simp only [Bool.or_eq_true, Bool.and_eq_true, beq_iff_eq] at hp
  rcases hp with ⟨hc1, hc2⟩ | ⟨hc1, hc2⟩ <;>
    subst hc1 <;> subst hc2 <;>
    refine ⟨rfl, ?_, ?_, ?_⟩ <;>
    simp_all [digitsToNat, isDigitChar] <;>
    first
      | (intro c hc; rcases hc with h | h | rfl <;> simp_all)
      | omega

/-- A year run has the regex pattern shape. -/
lemma pattern_of_yearRun (c1 c2 c3 c4 : Char) (h : isYearRun [c1, c2, c3, c4]) :
    ((c1 == '1' && c2 == '9') || (c1 == '2' && c2 == '0')) = true ∧
    isDigitChar c3 = true ∧ isDigitChar c4 = true := by
  obtain ⟨-, hd, hlo, hhi⟩ := h
  have h1 := (isDigitChar_iff c1).mp (hd c1 (by simp))
  have h2 := (isDigitChar_iff c2).mp (hd c2 (by simp))
  have h3 := hd c3 (by simp)
  have h4 := hd c4 (by simp)
  have h3' := (isDigitChar_iff c3).mp h3
  have h4' := (isDigitChar_iff c4).mp h4
  simp only [digitsToNat, List.foldl] at hlo hhi
  have hcase : (c1.toNat = 49 ∧ c2.toNat = 57) ∨
      (c1.toNat = 50 ∧ c2.toNat = 48) := by omega
  refine ⟨?_, h3, h4⟩
  rcases hcase with ⟨ha, hb⟩ | ⟨ha, hb⟩
  · have e1 : c1 = '1' := char_eq_of_toNat c1 '1' (by rw [ha]; rfl)
    have e2 : c2 = '9' := char_eq_of_toNat c2 '9' (by rw [hb]; rfl)
    simp [e1, e2]
  · have e1 : c1 = '2' := char_eq_of_toNat c1 '2' (by rw [ha]; rfl)
    have e2 : c2 = '0' := char_eq_of_toNat c2 '0' (by rw [hb]; rfl)
    simp [e1, e2]

/-- Equation of the anchored match at a position with four characters
left. -/
lemma yearAt_cons4 (prev : Option Char) (c1 c2 c3 c4 : Char)
    (rest : List Char) :
    yearAt prev (c1 :: c2 :: c3 :: c4 :: rest) =
      if notDigitB prev &&
         ((c1 == '1' && c2 == '9') || (c1 == '2' && c2 == '0')) &&
         isDigitChar c3 && isDigitChar c4 &&
         notDigitB rest.head?
      then some [c1, c2, c3, c4] else none := rfl

/-- Shape of a list of length four. -/
lemma list_len4 (y : List Char) (h : y.length = 4) :
    ∃ a b c d, y = [a, b, c, d] := by
  cases y with
  | nil => simp at h
  | cons a t1 =>
    cases t1 with
    | nil => simp at h
    | cons b t2 =>
      cases t2 with
      | nil => simp at h
      | cons c t3 =>
        cases t3 with
        | nil => simp at h
        | cons d t4 =>
          cases t4 with
          | nil => exact ⟨a, b, c, d, rfl⟩
          | cons e t5 =>
            simp only [List.length_cons, List.length_nil] at h
            omega

/-- Decomposition of a successful anchored year match. -/
lemma yearAt_eq_some (prev : Option Char) (cs y : List Char)
    (h : yearAt prev cs = some y) :
    ∃ c1 c2 c3 c4 rest, cs = c1 :: c2 :: c3 :: c4 :: rest ∧
      y = [c1, c2, c3, c4] ∧ isYearRun y ∧ notDigitO prev ∧
      notDigitO rest.head? := by
  rcases cs with - | ⟨c1, - | ⟨c2, - | ⟨c3, - | ⟨c4, rest⟩⟩⟩⟩
  · simp [yearAt] at h
  · simp [yearAt] at h
  · simp [yearAt] at h
  · simp [yearAt] at h
  · rw [yearAt_cons4] at h
    by_cases hg : (notDigitB prev &&
        ((c1 == '1' && c2 == '9') || (c1 == '2' && c2 == '0')) &&
        isDigitChar c3 && isDigitChar c4 && notDigitB rest.head?) = true
    · rw [if_pos hg] at h
      have hy : [c1, c2, c3, c4] = y := Option.some.inj h
      simp only [Bool.and_eq_true] at hg
      obtain ⟨⟨⟨⟨hprev, hpat⟩, h3⟩, h4⟩, hnext⟩ := hg
      exact ⟨c1, c2, c3, c4, rest, rfl, hy.symm,
        hy ▸ yearRun_of_pattern c1 c2 c3 c4 hpat h3 h4,
        (notDigitB_iff prev).mp hprev, (notDigitB_iff _).mp hnext⟩
    · rw [if_neg hg] at h
      exact absurd h (by simp)

/-- An anchored position satisfying all regex conditions matches. -/
lemma yearAt_of_conditions (prev : Option Char) (c1 c2 c3 c4 : Char)
    (rest : List Char) (hY : isYearRun [c1, c2, c3, c4])
    (hprev : notDigitO prev) (hnext : notDigitO rest.head?) :
    yearAt prev (c1 :: c2 :: c3 :: c4 :: rest) = some [c1, c2, c3, c4] := by
  obtain ⟨hpat, h3, h4⟩ := pattern_of_yearRun c1 c2 c3 c4 hY
  rw [yearAt_cons4, if_pos]
  simp only [Bool.and_eq_true]
  exact ⟨⟨⟨⟨(notDigitB_iff prev).mpr hprev, hpat⟩, h3⟩, h4⟩,
    (notDigitB_iff _).mpr hnext⟩

/-- Soundness of the year scan: a returned run is a year run occurring
at a position whose neighbours are not digits. -/
lemma searchYear_sound : ∀ (cs : List Char) (prev : Option Char)
    (y : List Char), searchYear prev cs = some y →
    isYearRun y ∧ ∃ mid post, cs = mid ++ y ++ post ∧
      notDigitO (lookBehind prev mid) ∧ notDigitO post.head? := by
  intro cs
  induction cs with
  | nil => intro prev y h; simp [searchYear] at h
  | cons c rest ih =>
    intro prev y h
    cases hA : yearAt prev (c :: rest) with
    | some y2 =>
      have h2 : y2 = y := by
        unfold searchYear at h; rw [hA] at h; exact Option.some.inj h
      subst h2
      obtain ⟨c1, c2, c3, c4, rest', hcs, hy, hY, hprev, hnext⟩ :=
        yearAt_eq_some prev (c :: rest) y2 hA
      refine ⟨hY, [], rest', ?_, ?_, hnext⟩
      · rw [hcs, hy]; rfl
      · intro x hx
        exact hprev x hx
    | none =>
      have h2 : searchYear (some c) rest = some y := by
        unfold searchYear at h; rw [hA] at h; exact h
      obtain ⟨hY, mid, post, heq, hlb, hpost⟩ := ih (some c) y h2
      refine ⟨hY, c :: mid, post, ?_, ?_, hpost⟩
      · rw [List.cons_append, List.cons_append, heq]
      · rw [lookBehind_cons]; exact hlb

/-- Completeness of the year scan: if the scan fails, no position
carries a year run with non-digit neighbours. -/
lemma searchYear_complete : ∀ (cs : List Char) (prev : Option Char),
    searchYear prev cs = none →
    ∀ mid y post, cs = mid ++ y ++ post → isYearRun y →
      notDigitO (lookBehind prev mid) → notDigitO post.head? → False := by
  intro cs
  induction cs with
  | nil =>
    intro prev _ mid y post heq hY _ _
    have hlen := congrArg List.length heq
    simp only [List.length_nil, List.length_append] at hlen
    have h4 := hY.1
    omega
  | cons c rest ih =>
    intro prev h mid y post heq hY hlb hpost
    have hA : yearAt prev (c :: rest) = none := by
      cases hA : yearAt prev (c :: rest) with
      | some y2 =>
        unfold searchYear at h; rw [hA] at h; exact absurd h (by simp)
      | none => rfl
    have hrec : searchYear (some c) rest = none := by
      unfold searchYear at h; rw [hA] at h; exact h
    cases mid with
    | nil =>
      obtain ⟨d1, d2, d3, d4, hy⟩ := list_len4 y hY.1
      subst hy
      simp only [List.nil_append, List.cons_append] at heq
      injection heq with hc hrest
      subst hrest
      rw [hc] at hA
      have hlb' : notDigitO prev := by
        simpa [lookBehind] using hlb
      have hmatch := yearAt_of_conditions prev d1 d2 d3 d4 post hY hlb' hpost
      rw [hmatch] at hA
      exact absurd hA (by simp)
    | cons m mid' =>
      simp only [List.cons_append] at heq
      injection heq with hc hrest
      subst hc
      rw [lookBehind_cons] at hlb
      exact ih (some c) hrec mid' y post hrest hY hlb hpost

/-- C5: `extract_year` is total; when it returns a value, that value is
a four-digit run in the range 1900-2099 occurring in the text with no
adjacent digit on either side; when it returns `None`, no such run
exists anywhere in the text. -/
theorem C5_extract_year (s : List Char) :
    (∀ y, extract_year s = some y →
      isYearRun y ∧ ∃ pre post, s = pre ++ y ++ post ∧
        notDigitO pre.getLast? ∧ notDigitO post.head?) ∧
    (extract_year s = none →
      ∀ pre y post, s = pre ++ y ++ post → isYearRun y →
        notDigitO pre.getLast? → notDigitO post.head? → False) := by
  constructor
  · intro y h
    obtain ⟨hY, mid, post, heq, hlb, hpost⟩ := searchYear_sound s none y h
    rw [lookBehind_none] at hlb
    exact ⟨hY, mid, post, heq, hlb, hpost⟩
  · intro h pre y post heq hY hpre hpost
    exact searchYear_complete s none h pre y post heq hY
      (by rwa [lookBehind_none]) hpost

theorem C5_extract_year_witness :
    extract_year "ab 2014 x".data = some "2014".data ∧
    (isYearRun "2014".data ∧
      ∃ pre post, "ab 2014 x".data = pre ++ "2014".data ++ post ∧
        notDigitO pre.getLast? ∧ notDigitO post.head?) :=
  ⟨by decide, (C5_extract_year "ab 2014 x".data).1 "2014".data (by decide)⟩

/-- C6: `quality_rank` assigns strictly descending ranks along
2160p > 1080p > 720p > 480p > HDRip, every known tier ranks strictly
above the unknown/missing tier, and `get_quality_label` selects by the
same priority order: the 2160p/4K markers dominate, then 1080p, 720p,
480p, HDRip, and with no marker present the label is `None`. -/
theorem C6_quality_order :
    (quality_rank (some "2160p".data) > quality_rank (some "1080p".data) ∧
     quality_rank (some "1080p".data) > quality_rank (some "720p".data) ∧
     quality_rank (some "720p".data) > quality_rank (some "480p".data) ∧
     quality_rank (some "480p".data) > quality_rank (some "HDRip".data) ∧
     quality_rank (some "HDRip".data) > quality_rank none) ∧
    (∀ s : List Char,
      (s = "2160p".data ∨ s = "1080p".data ∨ s = "720p".data ∨
       s = "480p".data ∨ s = "HDRip".data) →
      quality_rank (some s) > quality_rank none) ∧
    (∀ s : List Char,
      (containsTok (lowerStr s) "2160p".data ||
        containsTok (lowerStr s) "4k".data) = true →
      get_quality_label s = some "2160p".data) ∧
    (∀ s : List Char,
      (containsTok (lowerStr s) "2160p".data ||
        containsTok (lowerStr s) "4k".data) = false →
      containsTok (lowerStr s) "1080p".data = true →
      get_quality_label s = some "1080p".data) ∧
    (∀ s : List Char,
      (containsTok (lowerStr s) "2160p".data ||
        containsTok (lowerStr s) "4k".data) = false →
      containsTok (lowerStr s) "1080p".data = false →
      containsTok (lowerStr s) "720p".data = true →
      get_quality_label s = some "720p".data) ∧
    (∀ s : List Char,
      (containsTok (lowerStr s) "2160p".data ||
        containsTok (lowerStr s) "4k".data) = false →
      containsTok (lowerStr s) "1080p".data = false →
      containsTok (lowerStr s) "720p".data = false →
      containsTok (lowerStr s) "480p".data = true →
      get_quality_label s = some "480p".data) ∧
    (∀ s : List Char,
      (containsTok (lowerStr s) "2160p".data ||
        containsTok (lowerStr s) "4k".data) = false →
      containsTok (lowerStr s) "1080p".data = false →
      containsTok (lowerStr s) "720p".data = false →
      containsTok (lowerStr s) "480p".data = false →
      containsTok (lowerStr s) "hdrip".data = true →
      get_quality_label s = some "HDRip".data) ∧
    (∀ s : List Char,
      (containsTok (lowerStr s) "2160p".data ||
        containsTok (lowerStr s) "4k".data) = false →
      containsTok (lowerStr s) "1080p".data = false →
      containsTok (lowerStr s) "720p".data = false →
      containsTok (lowerStr s) "480p".data = false →
      containsTok (lowerStr s) "hdrip".data = false →
      get_quality_label s = none) := by
  refine ⟨by decide, ?_, ?_, ?_, ?_, ?_, ?_, ?_⟩
  · intro s h
    rcases h with h | h | h | h | h <;> subst h <;> decide
  · intro s h1
    simp [get_quality_label, h1]
  · intro s h1 h2
    simp [get_quality_label, h1, h2]
  · intro s h1 h2 h3
    simp [get_quality_label, h1, h2, h3]
  · intro s h1 h2 h3 h4
    simp [get_quality_label, h1, h2, h3, h4]
  · intro s h1 h2 h3 h4 h5
    simp [get_quality_label, h1, h2, h3, h4, h5]
  · intro s h1 h2 h3 h4 h5
    simp [get_quality_label, h1, h2, h3, h4, h5]

theorem C6_quality_order_witness :
    get_quality_label "Movie 720p 4K".data = some "2160p".data ∧
    get_quality_label "Movie 1080p HDRip".data = some "1080p".data :=
  ⟨C6_quality_order.2.2.1 _ (by decide),
   C6_quality_order.2.2.2.1 _ (by decide) (by decide)⟩

/-- Right-stripping yields a prefix of the input. -/
lemma pyRstrip_isPre (l : List Char) : pyRstrip l <+: l := by
  obtain ⟨t, ht⟩ := List.dropWhile_suffix (l := l.reverse) pySpace
  refine ⟨t.reverse, ?_⟩
  calc (l.reverse.dropWhile pySpace).reverse ++ t.reverse
      = (t ++ l.reverse.dropWhile pySpace).reverse := by
        rw [List.reverse_append]
    _ = l.reverse.reverse := by rw [ht]
    _ = l := List.reverse_reverse l

/-- Taking an initial segment yields a prefix. -/
lemma take_isPre (n : Nat) (l : List Char) : l.take n <+: l :=
  ⟨l.drop n, List.take_append_drop n l⟩

/-- C7: the built button label never exceeds `MAX_LEN` (60) characters,
and whenever the joined label was truncated, the output ends with the
ellipsis character and everything before the ellipsis is a prefix of
the untruncated joined string. -/
theorem C7_label_bound (title : List Char)
    (year quality lang : Option (List Char)) :
    (build_button_label title year quality lang).length ≤ MAX_LEN ∧
    (MAX_LEN < (joinParts (labelParts title year quality lang)).length →
      (build_button_label title year quality lang).getLast? = some '…' ∧
      (build_button_label title year quality lang).dropLast <+:
        joinParts (labelParts title year quality lang)) := by
  by_cases h : MAX_LEN < (joinParts (labelParts title year quality lang)).length
  · have hb : build_button_label title year quality lang =
        pyRstrip ((joinParts (labelParts title year quality lang)).take
          (MAX_LEN - 1)) ++ ['…'] := by
      simp only [build_button_label]
      rw [if_pos h]
    constructor
    · rw [hb, List.length_append]
      have h1 : (pyRstrip ((joinParts (labelParts title year quality lang)).take
            (MAX_LEN - 1))).length ≤
          ((joinParts (labelParts title year quality lang)).take
            (MAX_LEN - 1)).length :=
        (pyRstrip_isPre _).length_le
      have h2 : ((joinParts (labelParts title year quality lang)).take
          (MAX_LEN - 1)).length ≤ MAX_LEN - 1 := by
        rw [List.length_take]
        omega
      have hM : (1 : Nat) ≤ MAX_LEN := by decide
      simp only [List.length_singleton]
      omega
    · intro _
      rw [hb]
      constructor
      · exact List.getLast?_concat _
      · have hdl : (pyRstrip ((joinParts (labelParts title year quality lang)).take
            (MAX_LEN - 1)) ++ ['…']).dropLast =
            pyRstrip ((joinParts (labelParts title year quality lang)).take
              (MAX_LEN - 1)) := by
          simp
        rw [hdl]
        obtain ⟨t1, h1⟩ := pyRstrip_isPre
          ((joinParts (labelParts title year quality lang)).take (MAX_LEN - 1))
        obtain ⟨t2, h2⟩ := take_isPre (MAX_LEN - 1)
          (joinParts (labelParts title year quality lang))
        exact ⟨t1 ++ t2, by rw [← List.append_assoc, h1, h2]⟩
  · have hb : build_button_label title year quality lang =
        joinParts (labelParts title year quality lang) := by
      simp only [build_button_label]
      rw [if_neg h]
    constructor
    · rw [hb]
      omega
    · intro hcon
      exact absurd hcon h

theorem C7_label_bound_witness :
    MAX_LEN < (joinParts (labelParts (List.replicate 70 'a')
      none none none)).length ∧
    ((build_button_label (List.replicate 70 'a') none none none).getLast? =
        some '…' ∧
      (build_button_label (List.replicate 70 'a') none none none).dropLast <+:
        joinParts (labelParts (List.replicate 70 'a') none none none)) :=
  ⟨by decide, (C7_label_bound (List.replicate 70 'a') none none none).2
    (by decide)⟩

/-- Membership survives `dropWhile`. -/
lemma mem_dropWhile (p : Char → Bool) (l : List Char) (c : Char)
    (h : c ∈ l.dropWhile p) : c ∈ l := by
  obtain ⟨t, ht⟩ := List.dropWhile_suffix (l := l) p
  rw [← ht]
  exact List.mem_append.mpr (Or.inr h)

/-- Membership survives stripping. -/
lemma mem_pyStrip (l : List Char) (c : Char) (h : c ∈ pyStrip l) : c ∈ l := by
  unfold pyStrip at h
  rw [List.mem_reverse] at h
  have h2 := mem_dropWhile _ _ _ h
  rw [List.mem_reverse] at h2
  exact mem_dropWhile _ _ _ h2

/-- A list's optional last element is a member. -/
lemma mem_of_getLast?_eq (l : List Char) (c : Char)
    (h : l.getLast? = some c) : c ∈ l := by
  induction l with
  | nil => simp at h
  | cons a t ih =>
    cases t with
    | nil =>
      simp only [List.getLast?_singleton, Option.some.injEq] at h
      simp [h]
    | cons b t2 =>
      rw [List.getLast?_cons_cons] at h
      exact List.mem_cons_of_mem a (ih h)

/-- C10: every label the discovery agent attaches to a menu button is
the sanitized label: non-empty (with the "Untitled" placeholder when
sanitation empties it), built only from allow-list characters, and in
particular free of the ellipsis character, so a truncated label as
rendered never ends with the ellipsis marker. -/
theorem C10_sanitized_labels (title : List Char)
    (year quality lang : Option (List Char)) :
    menu_label title year quality lang ≠ [] ∧
    (∀ c ∈ menu_label title year quality lang, allowChar c = true) ∧
    '…' ∉ menu_label title year quality lang ∧
    (menu_label title year quality lang).getLast? ≠ some '…' := by
  unfold menu_label sanitize_button_text_keep_basic_punct
  by_cases he : (pyStrip ((build_button_label title year quality lang).filter
      allowChar)).isEmpty
  · rw [if_pos he]
    exact ⟨by decide, by decide, by decide, by decide⟩
  · rw [if_neg he]
    have hmem : ∀ c ∈ pyStrip ((build_button_label title year quality
        lang).filter allowChar), allowChar c = true := by
      intro c hc
      have h2 := mem_pyStrip _ _ hc
      exact List.of_mem_filter h2
    refine ⟨?_, hmem, ?_, ?_⟩
    · intro hnil
      rw [hnil] at he
      exact he (by decide)
    · intro hin
      exact absurd (hmem '…' hin) (by decide)
    · intro hlast
      exact absurd (hmem '…' (mem_of_getLast?_eq _ _ hlast)) (by decide)

theorem C10_sanitized_labels_witness :
    menu_label "The Movie".data (some "2014".data) none none ≠ [] ∧
    (∀ c ∈ menu_label "The Movie".data (some "2014".data) none none,
      allowChar c = true) ∧
    '…' ∉ menu_label "The Movie".data (some "2014".data) none none ∧
    (menu_label "The Movie".data (some "2014".data) none none).getLast? ≠
      some '…' :=
  C10_sanitized_labels "The Movie".data (some "2014".data) none none

/-- C3 counterexample: the malformed `get:`-prefixed token "get:a:b"
is not silently acknowledged as a no-op — `private_callback_listener`
raises `TypeError` at the call `execution_agent(event, user_id)`
(src/my_bot.py line 329: two arguments bound to the one-parameter
`execution_agent` of line 197), so the handler crashes before any
acknowledgement, refuting both "silently acknowledges it as a no-op to
the user" and "never crashes". -/
theorem C3_counterexample :
    decodeToken "get:a:b".data = DecodeResult.malformed ∧
    private_callback_listener true "get:a:b".data =
      ListenerAction.raisesTypeError ∧
    listener_call_arg_count ≠ execution_agent_param_count ∧
    ListenerAction.raisesTypeError ≠ ListenerAction.silentAnswer := by decide

/-- C3 (amended): a callback token without the `get:` prefix is
silently acknowledged as a no-op by the listener, as is any callback
from a non-private chat; but every `get:`-prefixed callback — whether
its fields would decode or not — makes `private_callback_listener`
raise `TypeError` at the two-argument call of the one-parameter
`execution_agent`, so for a malformed `get:` token the handler crashes
uncaught inside this program's code and the user receives no
acknowledgement, no error banner and no status message
(`execution_agent`'s parse and its "Invalid selection." alert are
unreachable). -/
theorem C3_malformed_handling (data : List Char) :
    (startsWithGet data = false →
      private_callback_listener true data = .silentAnswer) ∧
    (startsWithGet data = true →
      private_callback_listener true data = .raisesTypeError) ∧
    private_callback_listener false data = .silentAnswer := by
  refine ⟨?_, ?_, ?_⟩
  · intro h
    simp [private_callback_listener, h]
  · intro h
    simp [private_callback_listener, h]
  · simp [private_callback_listener]

theorem C3_malformed_handling_witness :
    private_callback_listener true "xyz".data = .silentAnswer ∧
    private_callback_listener true "get:9:9:9x".data = .raisesTypeError :=
  ⟨(C3_malformed_handling "xyz".data).1 (by decide),
   (C3_malformed_handling "get:9:9:9x".data).2.1 (by decide)⟩

/-- When every page up to the horizon has a working "next" control, the
replay loop completes all its iterations. -/
lemma replayWalk_reached (env : ReplayEnv) :
    ∀ r k, (∀ j, k ≤ j → j < k + r →
      env.hasNextBtn j = true ∧ env.advOk j = true) →
      replayWalk env k r = .reached r := by
  intro r
  induction r with
  | zero => intro k _; rfl
  | succ r ih =>
    intro k h
    have hk := h k (le_refl k) (by omega)
    have hrec := ih (k + 1) (fun j hj1 hj2 => h j (by omega) (by omega))
    simp [replayWalk, hk.1, hk.2, hrec]

/-- When the "next" control first disappears at page `k0` before the
horizon, the replay loop halts with a state change after `k0 - k`
clicks. -/
lemma replayWalk_stateChanged (env : ReplayEnv) :
    ∀ r k k0, k ≤ k0 → k0 < k + r → env.hasNextBtn k0 = false →
      (∀ j, k ≤ j → j < k0 →
        env.hasNextBtn j = true ∧ env.advOk j = true) →
      replayWalk env k r = .stateChanged (k0 - k) := by
  intro r
  induction r with
  | zero => intro k k0 h1 h2 _ _; omega
  | succ r ih =>
    intro k k0 h1 h2 h3 h4
    by_cases hk : k = k0
    · subst hk
      have hred : replayWalk env k (r + 1) = .stateChanged 0 := by
        simp [replayWalk, h3]
      rw [hred, Nat.sub_self]
    · have hklt : k < k0 := by omega
      have hk' := h4 k (le_refl k) hklt
      have hrec := ih (k + 1) k0 (by omega) (by omega) h3
        (fun j hj1 hj2 => h4 j (by omega) hj2)
      simp only [replayWalk, hk'.1, hk'.2, if_true, hrec]
      have : k0 - (k + 1) + 1 = k0 - k := by omega
      rw [this]

/-- C8: during a selection replay with decoded target page `P ≥ 1`, if
the "next" control is absent on some page `k0` before `P` (all earlier
pages advancing normally), the replay raises the state-changed error
after exactly `k0 - 1` next-clicks, the user sees the retrieval-error
status edit, the target index is never clicked and no artifact is
forwarded; and when every page before `P` advances normally, the
replay clicks "next" exactly `P - 1` times and then clicks the target
index. -/
theorem C8_replay_state_changed (env : ReplayEnv) (P : Nat) (I : Int)
    (hP : 1 ≤ P) :
    (∀ k0, 1 ≤ k0 → k0 < P → env.hasNextBtn k0 = false →
      (∀ j, 1 ≤ j → j < k0 →
        env.hasNextBtn j = true ∧ env.advOk j = true) →
      execution_agent_replay env P I =
        ⟨k0 - 1, false, .errorEditRetrieval, some .stateChanged⟩) ∧
    ((∀ j, 1 ≤ j → j < P →
        env.hasNextBtn j = true ∧ env.advOk j = true) →
      (execution_agent_replay env P I).nextClicks = P - 1 ∧
      (execution_agent_replay env P I).clickedTargetIdx = true) := by
  constructor
  · intro k0 h1 h2 h3 h4
    have hw := replayWalk_stateChanged env (P - 1) 1 k0 h1 (by omega) h3 h4
    simp [execution_agent_replay, hw]
  · intro h
    have hw := replayWalk_reached env (P - 1) 1
      (fun j hj1 hj2 => h j hj1 (by omega))
    cases hpoll : pollForArtifact env.artifactAt with
    | none => simp [execution_agent_replay, hw, hpoll]
    | some k =>
      simp [execution_agent_replay, hw, hpoll, execution_agent_scope_user_id]

theorem C8_replay_state_changed_witness :
    execution_agent_replay ⟨fun k => !(k == 2), fun _ => true, fun _ => true⟩
        3 1 =
      ⟨1, false, .errorEditRetrieval, some .stateChanged⟩ :=
  (C8_replay_state_changed ⟨fun k => !(k == 2), fun _ => true, fun _ => true⟩
      3 1 (by decide)).1 2 (by decide) (by decide) (by decide)
    (fun j hj1 hj2 => by
      have hj : j = 1 := by omega
      subst hj
      exact ⟨rfl, rfl⟩)

/-- A bounded poll that has a hit within its budget returns a value. -/
lemma pollGo_finds (a : Nat → Bool) :
    ∀ n k, (∃ j, k ≤ j ∧ j < k + n ∧ a j = true) →
      ∃ m, pollGo a n k = some m := by
  intro n
  induction n with
  | zero =>
    rintro k ⟨j, h1, h2, -⟩
    omega
  | succ n ih =>
    rintro k ⟨j, h1, h2, h3⟩
    by_cases hk : a k = true
    · exact ⟨k, by simp [pollGo, hk]⟩
    · have hjk : j ≠ k := fun he => hk (he ▸ h3)
      obtain ⟨m, hm⟩ := ih (k + 1) ⟨j, by omega, by omega, h3⟩
      exact ⟨m, by simp [pollGo, hk, hm]⟩

/-- C9 (code bug): even when the replay walk succeeds and a polled
response carries a file artifact within the 8-attempt bound, the
execution never forwards it: the forward step evaluates the name
`user_id`, which is unbound in `execution_agent`'s scope, so the run
raises `NameError`, the `except` clause replaces the status with the
generic retrieval error, and the menu message is never deleted.  (The
call site compounds this: `private_callback_listener` invokes
`execution_agent(event, user_id)` with two arguments although the
function's definition takes one.) -/
theorem C9_delivery_never_forwards (env : ReplayEnv) (P : Nat) (I : Int)
    (hP : 1 ≤ P)
    (hwalk : ∀ j, 1 ≤ j → j < P →
      env.hasNextBtn j = true ∧ env.advOk j = true)
    (hart : ∃ k, 1 ≤ k ∧ k ≤ 8 ∧ env.artifactAt k = true) :
    (execution_agent_replay env P I).ending = .errorEditRetrieval ∧
    (execution_agent_replay env P I).raised = some .nameErrorUserId ∧
    (execution_agent_replay env P I).ending ≠ .forwardedAndCleaned := by
  have hw := replayWalk_reached env (P - 1) 1
    (fun j hj1 hj2 => hwalk j hj1 (by omega))
  obtain ⟨m, hm⟩ := pollGo_finds env.artifactAt 8 1 (by
    obtain ⟨k, h1, h2, h3⟩ := hart
    exact ⟨k, h1, by omega, h3⟩)
  have hpoll : pollForArtifact env.artifactAt = some m := hm
  refine ⟨?_, ?_, ?_⟩ <;>
    simp [execution_agent_replay, hw, hpoll, execution_agent_scope_user_id]

theorem C9_delivery_never_forwards_witness :
    (execution_agent_replay ⟨fun _ => true, fun _ => true, fun _ => true⟩
      1 0).ending = .errorEditRetrieval ∧
    (execution_agent_replay ⟨fun _ => true, fun _ => true, fun _ => true⟩
      1 0).raised = some .nameErrorUserId ∧
    (execution_agent_replay ⟨fun _ => true, fun _ => true, fun _ => true⟩
      1 0).ending ≠ .forwardedAndCleaned :=
  C9_delivery_never_forwards ⟨fun _ => true, fun _ => true, fun _ => true⟩ 1 0
    (by decide)
    (fun j hj1 hj2 => absurd hj2 (by omega))
    ⟨1, by decide, by decide, rfl⟩
